import Mathlib

/-!
# Verification of the mesh_navigation planner and mesh client

This file embeds, in Lean 4, the parts of the `mesh_navigation` repository
that the verified properties talk about:

* the continuous-vector-field (CVP) wavefront planner declared in
  `cvp_mesh_planner/include/cvp_mesh_planner/cvp_mesh_planner.h`
  (the implementation file is not part of the sources at hand, so the
  propagation loop, the three triangle relaxation rules, the path
  integrator, the cancellation handling and the configuration snapshot
  are modelled from the specification's description of them); and
* the HTTP mesh client of `mesh_client/src/mesh_client.cpp`, embedded
  directly from the C++ source.

Distances are modelled as exact integers extended with an infinity
(`Dist := Option ℤ`, `none` playing the role of the C++ `infinity`
float), so every definition is executable, every comparison decidable,
and concrete runs reduce inside the kernel; the geometric points of the
path integrator use exact rationals.
-/

namespace MeshNav

/-- A distance value: `some q` is a finite distance, `none` is infinity
(the planner initialises every potential to infinity). -/
abbrev Dist := Option ℤ

/-- Addition on distances; infinity absorbs. -/
def dAdd : Dist → Dist → Dist
  | some x, some y => some (x + y)
  | _, _ => none

/-- Strict comparison on distances; infinity is larger than every finite
value and not smaller than itself. -/
def dLt : Dist → Dist → Bool
  | some x, some y => decide (x < y)
  | some _, none => true
  | none, _ => false

/-- Non-strict comparison on distances. -/
def dLe (x y : Dist) : Bool := !(dLt y x)

/-- Minimum of two distances. -/
def dMin (x y : Dist) : Dist := if dLt y x then y else x

/-- Maximum of two distances. -/
def dMax (x y : Dist) : Dist := if dLt x y then y else x

/-! ## The three triangle relaxation rules

Modelled from the spec: the implementation file of
`CVPMeshPlanner::waveFrontUpdate`, `waveFrontUpdateWithS` and
`waveFrontUpdateFMM` is not among the sources, so the rules are modelled
from the specification: each rule is a cut test (does the wavefront cut
the triangle through the edge opposite `v3`?) together with a distance
formula, wrapped in the shared contract shell
"(distances, weights, v1, v2, v3) → improved?".  The exact
floating-point trigonometry of the original is replaced by rational
surrogates with the same structure (a Law-of-Cosines style combination
of the two known distances and the three edge lengths). -/

/-- A vertex-indexed distance map, as the planner's `distances` /
`potential_` map. -/
abbrev VMap := Nat → Dist

/-- Pointwise update of a distance map at one vertex. -/
def vset (m : VMap) (v : Nat) (d : Dist) : VMap :=
  fun u => if u = v then d else m u

/-- Modelled from the spec: the Law-of-Cosines cut test — the wavefront
crosses the edge `v1 v2` (of weight `c`) opposite `v3` exactly when each
of the two known distances is smaller than the other plus the edge, i.e.
the source's wavefront meets the edge strictly between its endpoints. -/
def cutTestLoC (d1 d2 _a _b c : Dist) : Bool :=
  dLt d1 (dAdd d2 c) && dLt d2 (dAdd d1 c)

/-- Modelled from the spec: Hesse-normal-form cut test, expressed through
the semiperimeter-like quantity `s = (d1 + d2 + c) / 2`: the wavefront
cuts the triangle when both known distances lie strictly below `s`. -/
def cutTestWithS (d1 d2 _a _b c : Dist) : Bool :=
  match d1, d2, c with
  | some q1, some q2, some qc =>
    decide (q1 < (q1 + q2 + qc) / 2) && decide (q2 < (q1 + q2 + qc) / 2)
  | _, _, _ => cutTestLoC d1 d2 _a _b c

/-- Modelled from the spec: the Law-of-Cosines distance increment for the
new vertex, a non-negative rational surrogate of the triangle height
term: `max 0 ((a + b - c) / 2)`. -/
def locStep : Dist → Dist → Dist → Dist
  | some a, some b, some c => some (max 0 ((a + b - c) / 2))
  | _, _, _ => none

/-- Modelled from the spec: the Fast-Marching-Method distance increment,
a second Law-of-Cosines flavoured rational surrogate using the squared
edge lengths: `max 0 ((a * a + b * b - c * c) / (2 * (a + b)))`. -/
def fmmStep : Dist → Dist → Dist → Dist
  | some a, some b, some c => some (max 0 ((a * a + b * b - c * c) / (2 * (a + b))))
  | _, _, _ => none

/-- Modelled from the spec: distance formula of the default rule — the
larger of the two known distances plus the Law-of-Cosines increment. -/
def formulaLoC (d1 d2 a b c : Dist) : Dist := dAdd (dMax d1 d2) (locStep a b c)

/-- Modelled from the spec: distance formula of the Hesse-normal-form
rule — the smaller of the two known distances plus the same
Law-of-Cosines increment. -/
def formulaWithS (d1 d2 a b c : Dist) : Dist := dAdd (dMin d1 d2) (locStep a b c)

/-- Modelled from the spec: distance formula of the Fast Marching rule. -/
def formulaFMM (d1 d2 a b c : Dist) : Dist := dAdd (dMax d1 d2) (fmmStep a b c)

/-- Modelled from the spec: the shared contract shell of the three relaxation rules: read the two
known distances and the three edge weights of the triangle, test whether
the wavefront cuts the triangle, compute the candidate distance, and
update `v3` exactly when the cut test holds and the candidate is strictly
shorter than the current value.  Returns the `improved?` flag and the
possibly-updated distance map. -/
def relaxShell (cut : Dist → Dist → Dist → Dist → Dist → Bool)
    (formula : Dist → Dist → Dist → Dist → Dist → Dist)
    (distances : VMap) (edge_weights : Nat → Nat → Dist)
    (v1 v2 v3 : Nat) : Bool × VMap :=
  let d1 := distances v1
  let d2 := distances v2
  let a := edge_weights v2 v3
  let b := edge_weights v1 v3
  let c := edge_weights v1 v2
  let dNew := formula d1 d2 a b c
  if cut d1 d2 a b c && dLt dNew (distances v3) then
    (true, vset distances v3 dNew)
  else
    (false, distances)

/-- Modelled from the spec: `CVPMeshPlanner::waveFrontUpdate`, the default
single-source update step with the Law-of-Cosines cut test. -/
def waveFrontUpdate (distances : VMap) (edge_weights : Nat → Nat → Dist)
    (v1 v2 v3 : Nat) : Bool × VMap :=
  relaxShell cutTestLoC formulaLoC distances edge_weights v1 v2 v3

/-- Modelled from the spec: `CVPMeshPlanner::waveFrontUpdateWithS`, the
update step with the Hesse-normal-form cut test. -/
def waveFrontUpdateWithS (distances : VMap) (edge_weights : Nat → Nat → Dist)
    (v1 v2 v3 : Nat) : Bool × VMap :=
  relaxShell cutTestWithS formulaWithS distances edge_weights v1 v2 v3

/-- Modelled from the spec: `CVPMeshPlanner::waveFrontUpdateFMM`, the Fast
Marching Method update step. -/
def waveFrontUpdateFMM (distances : VMap) (edge_weights : Nat → Nat → Dist)
    (v1 v2 v3 : Nat) : Bool × VMap :=
  relaxShell cutTestLoC formulaFMM distances edge_weights v1 v2 v3

/-! ## The mesh client (`mesh_client/src/mesh_client.cpp`)

Embedded directly from the C++ source.  A response body is a byte list;
a channel stores its element count, width and decoded element data.
The three `std::map<std::string, Channel>` caches become association
lists with insert-or-replace and first-match lookup. -/

/-- A data channel as cached by `MeshClient` (`lvr2::FloatChannel` /
`IndexChannel` / `UCharChannel`): element count, width, element data. -/
structure Channel where
  numElements : Nat
  width : Nat
  data : List Nat
  deriving DecidableEq

/-- Insert-or-replace into a string-keyed channel map, as
`map[name] = channel` on a `std::map`. -/
def mapInsert (m : List (String × Channel)) (k : String) (c : Channel) :
    List (String × Channel) :=
  (k, c) :: m.filter (fun p => !(p.1 == k))

/-- Lookup in a string-keyed channel map, as `map.find(name)`. -/
def mapFind (m : List (String × Channel)) (k : String) : Option Channel :=
  (m.find? (fun p => p.1 == k)).map Prod.snd

/-- Little-endian decode of `len` bytes of `s` starting at `off`, as the
C++ `reinterpret_cast` of the byte buffer to an integer on a
little-endian machine; bytes past the end of the buffer read as 0. -/
def leBytes (s : List Nat) (off len : Nat) : Nat :=
  (List.range len).foldr (fun i acc => acc * 256 + s.getD (off + i) 0) 0

/-- Modelled from the spec: the repository's `mesh_client.h` header (not
among the given sources) declares the `Type` enum; only that its `FLOAT`,
`UINT` and `UCHAR` members are distinct byte values matters here. -/
def typeFLOAT : Nat := 0

/-- Modelled from the spec: the `Type::UINT` enum value, see `typeFLOAT`. -/
def typeUINT : Nat := 1

/-- Modelled from the spec: the `Type::UCHAR` enum value, see `typeFLOAT`. -/
def typeUCHAR : Nat := 2

/-- The header decoded by `parseByteDataString`: the type byte at offset
0, the size field at offsets 1–8, the width field at offsets 9–16, and
the data region starting at offset 17. -/
structure ParsedHeader where
  type : Nat
  size : Nat
  width : Nat
  dataOffset : Nat
  deriving DecidableEq

instance : Inhabited ParsedHeader := ⟨⟨0, 0, 0, 0⟩⟩

/-- Function `parseByteDataString` of `mesh_client.cpp`: returns failure for
strings shorter than 10 bytes, and otherwise decodes the type byte at
offset 0, the eight-byte size field at offset 1 and the eight-byte width
field at offset 9, pointing the data at offset 17. -/
def parseByteDataString (s : List Nat) : Option ParsedHeader :=
  if s.length < 10 then none
  else some ⟨s.getD 0 0, leBytes s 1 8, leBytes s 9 8, 17⟩

/-- Decode `count` consecutive `wordSize`-byte little-endian words of `s`
starting at `off`, as the `memcpy` of `size * width` elements out of the
response body. -/
def decodeWords (s : List Nat) (off count wordSize : Nat) : List Nat :=
  (List.range count).map (fun i => leBytes s (off + i * wordSize) wordSize)

/-- The in-memory cache state of a `MeshClient`: its three
`std::map<std::string, Channel>` members. -/
structure MeshClientState where
  float_channels : List (String × Channel)
  index_channels : List (String × Channel)
  uchar_channels : List (String × Channel)
  deriving DecidableEq

/-- Method `MeshClient::addVertices`: stores the channel in the float cache
under the fixed key `vertices` and returns true. -/
def addVertices (st : MeshClientState) (channel : Channel) : Bool × MeshClientState :=
  (true, { st with float_channels := mapInsert st.float_channels "vertices" channel })

/-- Method `MeshClient::addIndices`: stores the channel in the index cache
under the fixed key `face_indices` and returns true. -/
def addIndices (st : MeshClientState) (channel : Channel) : Bool × MeshClientState :=
  (true, { st with index_channels := mapInsert st.index_channels "face_indices" channel })

/-- Method `MeshClient::addChannel` (float overload): stores the channel under
`name`; the `group` argument is ignored by the C++ body. -/
def addChannelFloat (st : MeshClientState) (group name : String) (channel : Channel) :
    Bool × MeshClientState :=
  (true, { st with float_channels := mapInsert st.float_channels name channel })

/-- Method `MeshClient::addChannel` (index overload): stores the channel under
`name`; the `group` argument is ignored by the C++ body. -/
def addChannelIndex (st : MeshClientState) (group name : String) (channel : Channel) :
    Bool × MeshClientState :=
  (true, { st with index_channels := mapInsert st.index_channels name channel })

/-- Method `MeshClient::addChannel` (uchar overload): stores the channel under
`name`; the `group` argument is ignored by the C++ body. -/
def addChannelUChar (st : MeshClientState) (group name : String) (channel : Channel) :
    Bool × MeshClientState :=
  (true, { st with uchar_channels := mapInsert st.uchar_channels name channel })

/-- Method `MeshClient::getVertices`.  The `response` argument stands for what
`requestChannel("vertices")` would deliver (`none` for a failed
request); the second component records whether that network request was
issued.  On a cache hit the cached channel is returned with no request;
otherwise the response is parsed and accepted only with type `FLOAT`. -/
def getVertices (st : MeshClientState) (response : Option (List Nat)) :
    Option Channel × Bool :=
  match mapFind st.float_channels "vertices" with
  | some c => (some c, false)
  | none =>
    match response with
    | some str =>
      if 17 < str.length then
        match parseByteDataString str with
        | some hdr =>
          if hdr.type == typeFLOAT then
            (some ⟨hdr.size, hdr.width, decodeWords str 17 (hdr.size * hdr.width) 4⟩, true)
          else (none, true)
        | none => (none, true)
      else (none, true)
    | none => (none, true)

/-- Method `MeshClient::getIndices`, as `getVertices` with the fixed key
`face_indices`, the index cache and element type `UINT`. -/
def getIndices (st : MeshClientState) (response : Option (List Nat)) :
    Option Channel × Bool :=
  match mapFind st.index_channels "face_indices" with
  | some c => (some c, false)
  | none =>
    match response with
    | some str =>
      if 17 < str.length then
        match parseByteDataString str with
        | some hdr =>
          if hdr.type == typeUINT then
            (some ⟨hdr.size, hdr.width, decodeWords str 17 (hdr.size * hdr.width) 4⟩, true)
          else (none, true)
        | none => (none, true)
      else (none, true)
    | none => (none, true)

/-- Method `MeshClient::getChannel` (`lvr2::FloatChannelOptional` overload).
`channel` is the in/out channel argument; the result is (return value,
channel afterwards, whether a network request was issued). -/
def getChannelFloat (st : MeshClientState) (group name : String)
    (channel : Option Channel) (response : Option (List Nat)) :
    Bool × Option Channel × Bool :=
  match mapFind st.float_channels name with
  | some c => (true, some c, false)
  | none =>
    match response with
    | some str =>
      if 17 < str.length then
        match parseByteDataString str with
        | some hdr =>
          if hdr.type == typeFLOAT then
            (true, some ⟨hdr.size, hdr.width, decodeWords str 17 (hdr.size * hdr.width) 4⟩, true)
          else (false, channel, true)
        | none => (false, channel, true)
      else (false, channel, true)
    | none => (false, channel, true)

/-- Method `MeshClient::getChannel` (`lvr2::IndexChannelOptional` overload).
The C++ condition is `if (!parseByteDataString(...) && type == Type::UINT)`
— note the negation: the copy branch requires the parse to FAIL.  Under
the enclosing `str->size() > 17` guard the parse always succeeds (its
only failure case is length < 10), so the copy branch is dead and every
cache miss returns false with the channel untouched; the uninitialised
`type` read the C++ would perform in the dead branch never happens. -/
def getChannelIndex (st : MeshClientState) (group name : String)
    (channel : Option Channel) (response : Option (List Nat)) :
    Bool × Option Channel × Bool :=
  match mapFind st.index_channels name with
  | some c => (true, some c, false)
  | none =>
    match response with
    | some str =>
      if 17 < str.length then
        match parseByteDataString str with
        | some _ => (false, channel, true)
        | none => (false, channel, true)
      else (false, channel, true)
    | none => (false, channel, true)

/-- Method `MeshClient::getChannel` (`lvr2::UCharChannelOptional` overload).  On
a cache miss with a response longer than 17 bytes the C++ copies using
the uninitialised locals `size`, `width` and `data` (no
`parseByteDataString` call precedes the copy); that indeterminate result
is modelled by the explicit `junk` argument. -/
def getChannelUChar (st : MeshClientState) (group name : String)
    (channel : Option Channel) (response : Option (List Nat)) (junk : Channel) :
    Bool × Option Channel × Bool :=
  match mapFind st.uchar_channels name with
  | some c => (true, some c, false)
  | none =>
    match response with
    | some str =>
      if 17 < str.length then (true, some junk, true)
      else (false, channel, true)
    | none => (false, channel, true)

/-! ## The wavefront solver

Modelled from the spec: the implementation of
`CVPMeshPlanner::waveFrontPropagation` is not among the sources (only
its declaration in `cvp_mesh_planner.h` is), so the solver is modelled
from the specification: a label-setting propagation over the faces of a
triangle mesh with a lazily-deleted ascending frontier, per-pop
cancellation checks, cost-limited vertices contributing infinite weight
to their incident edges, seeding at the goal, and negative edge weights
rejected as invalid input before any computation. -/

/-- Modelled from the spec: one planning request's inputs: the mesh (vertex count and triangle
list), the external edge weight and vertex cost maps, the per-request
tunables, the seed vertices with their planar distances from the exact
goal point, the stop vertex (nearest the robot), and the cancellation
token modelled as the sequence of values the per-iteration atomic reads
observe. -/
structure Input where
  nV : Nat
  faces : List (Nat × Nat × Nat)
  edgeWeight : Nat → Nat → ℤ
  vertexCost : Nat → ℤ
  costLimit : ℤ
  seeds : List (Nat × ℤ)
  stopVertex : Nat
  stopGoalDist : ℤ
  goalOffset : ℤ
  cancel : Nat → Bool

/-- Modelled from the spec: the effective weight of the edge `u v`: infinite when either endpoint's
cost reaches the configured cost limit, the external weight otherwise. -/
def effW (inp : Input) (u v : Nat) : Dist :=
  if inp.costLimit ≤ inp.vertexCost u ∨ inp.costLimit ≤ inp.vertexCost v then none
  else some (inp.edgeWeight u v)

/-- Modelled from the spec: the solver's mutable state: the potential, predecessor and
cutting-face maps, the frontier of (vertex, tentative potential)
entries, and the settled set. -/
structure WFState where
  potential : VMap
  predecessor : Nat → Option Nat
  cuttingFace : Nat → Option Nat
  frontier : List (Nat × ℤ)
  settled : Nat → Bool

/-- Modelled from the spec: the untouched per-request state: every potential infinite, no
predecessors, no cutting faces, empty frontier, nothing settled. -/
def emptyState : WFState :=
  { potential := fun _ => none
    predecessor := fun _ => none
    cuttingFace := fun _ => none
    frontier := []
    settled := fun _ => false }

/-- Modelled from the spec: seeding — each seed vertex (the goal vertex and its immediate
neighbors) receives its planar distance from the exact goal point as
potential and enters the frontier; seeds whose cost reaches the cost
limit are unreachable and are not seeded. -/
def seedState (inp : Input) : WFState :=
  let okSeeds := inp.seeds.filter (fun s => decide (inp.vertexCost s.1 < inp.costLimit))
  { potential := fun v => (okSeeds.find? (fun s => s.1 == v)).map Prod.snd
    predecessor := fun _ => none
    cuttingFace := fun _ => none
    frontier := okSeeds
    settled := fun _ => false }

/-- Modelled from the spec: one candidate relaxation inside face `fIdx` with triangle
`(v1, v2, v3)`: run the default relaxation rule (`waveFrontUpdate`'s
cut test and formula) on `v3`; when the wavefront does not cut the
triangle, fall back to ordinary single-edge relaxation from whichever
of `v1` / `v2` currently holds the lower potential.  Every improving
relaxation records `v3`'s predecessor, its cutting face, and pushes the
improved value on the frontier; settled vertices are immutable and
degenerate triangles are skipped. -/
def relaxCandidate (inp : Input) (fIdx : Nat) (v1 v2 v3 : Nat) (st : WFState) : WFState :=
  if st.settled v3 || (v1 == v3) || (v2 == v3) then st
  else
    let d1 := st.potential v1
    let d2 := st.potential v2
    let a := effW inp v2 v3
    let b := effW inp v1 v3
    let c := effW inp v1 v2
    let dNew :=
      if cutTestLoC d1 d2 a b c then formulaLoC d1 d2 a b c
      else if dLe d1 d2 then dAdd d1 b else dAdd d2 a
    match dNew with
    | none => st
    | some q =>
      if dLt (some q) (st.potential v3) then
        { st with
          potential := vset st.potential v3 (some q)
          predecessor := fun u => if u = v3 then some (if dLe d1 d2 then v1 else v2)
                                  else st.predecessor u
          cuttingFace := fun u => if u = v3 then some fIdx else st.cuttingFace u
          frontier := (v3, q) :: st.frontier }
      else st

/-- Modelled from the spec: expansion of one face during the settling of vertex `u`: when the
face contains `u`, each of its other vertices is relaxed as the
candidate `v3`, with the remaining two as `v1`, `v2`, in a fixed order. -/
def expandFace (inp : Input) (u : Nat) (st : WFState) (ff : Nat × (Nat × Nat × Nat)) : WFState :=
  let fIdx := ff.1
  let x := ff.2.1
  let y := ff.2.2.1
  let z := ff.2.2.2
  if x == u || y == u || z == u then
    let st1 := if z ≠ u then relaxCandidate inp fIdx x y z st else st
    let st2 := if y ≠ u then relaxCandidate inp fIdx x z y st1 else st1
    if x ≠ u then relaxCandidate inp fIdx y z x st2 else st2
  else st

/-- Modelled from the spec: expansion of a settled vertex — relax the candidates of every
incident face, in the fixed order of the face list. -/
def expandVertex (inp : Input) (u : Nat) (st : WFState) : WFState :=
  inp.faces.enum.foldl (expandFace inp u) st

/-- Modelled from the spec: frontier entry comparison — strictly smaller tentative potential
first, ties broken by the lower vertex index — the fixed reproducible
tie-breaking rule. -/
def entryBefore (a b : Nat × ℤ) : Bool :=
  decide (a.2 < b.2) || (decide (a.2 = b.2) && decide (a.1 < b.1))

/-- Modelled from the spec: the minimal frontier entry under `entryBefore`; among exactly equal
entries the earliest-pushed one is chosen. -/
def findMin : List (Nat × ℤ) → Option (Nat × ℤ)
  | [] => none
  | e :: es =>
    match findMin es with
    | none => some e
    | some m => if entryBefore m e then some m else some e

/-- Modelled from the spec: removal of one popped frontier entry. -/
def eraseEntry (e : Nat × ℤ) (l : List (Nat × ℤ)) : List (Nat × ℤ) :=
  l.eraseP (fun x => decide (x = e))

/-- Modelled from the spec: the outcomes of a planning request
(`fuelOut` is the artifact of the fuel-bounded loop). -/
inductive Outcome
  | success
  | unreachable
  | cancelled
  | invalidInput
  | fuelOut
  deriving DecidableEq

/-- Modelled from the spec: the propagation loop, fuel-bounded.  Each iteration: read the
cancellation flag once and return the cancelled outcome immediately when
it is set; otherwise pop the minimal frontier entry (empty frontier
means the stop region can no longer settle: unreachable), discard it if
its vertex is already settled (lazy deletion), and otherwise settle the
vertex, expand its incident faces, and finish with success once the
stop vertex is settled and propagation has passed the stop-goal
distance plus the goal offset. -/
def wfLoop (inp : Input) : Nat → Nat → WFState → WFState × Outcome
  | 0, _, st => (st, Outcome.fuelOut)
  | fuel + 1, it, st =>
    if inp.cancel it then (st, Outcome.cancelled)
    else
      match findMin st.frontier with
      | none => (st, Outcome.unreachable)
      | some (v, q) =>
        let rest := eraseEntry (v, q) st.frontier
        if st.settled v then
          wfLoop inp fuel (it + 1) { st with frontier := rest }
        else
          let st1 := { st with
            frontier := rest
            settled := fun u => if u = v then true else st.settled u }
          let st2 := expandVertex inp v st1
          if st2.settled inp.stopVertex && decide (inp.stopGoalDist + inp.goalOffset ≤ q) then
            (st2, Outcome.success)
          else
            wfLoop inp fuel (it + 1) st2

/-- The invariants of claim C1 on one solver state: every potential is
non-negative, and a vertex's potential dominates its predecessor's. -/
def GoodState (st : WFState) : Prop :=
  (∀ v, dLe (some 0) (st.potential v) = true) ∧
  (∀ v p, st.predecessor v = some p →
    dLe (st.potential p) (st.potential v) = true)

/-- The invariant of claim C3: a vertex whose cost reaches the cost
limit holds an infinite potential. -/
def CostInv (inp : Input) (st : WFState) : Prop :=
  ∀ v, inp.costLimit ≤ inp.vertexCost v → st.potential v = none

/-- Modelled from the spec: whether any mesh edge carries a negative
external weight. -/
def hasNegativeWeight (inp : Input) : Bool :=
  inp.faces.any (fun f =>
    decide (inp.edgeWeight f.1 f.2.1 < 0) || decide (inp.edgeWeight f.1 f.2.2 < 0) ||
    decide (inp.edgeWeight f.2.1 f.2.2 < 0))

/-- Modelled from the spec: `CVPMeshPlanner::waveFrontPropagation` (its implementation file is absent): a
negative edge weight is rejected as invalid input before any state is
touched; otherwise the wave is seeded at the goal and the fuel-bounded
propagation loop runs from iteration 0. -/
def waveFrontPropagation (inp : Input) (fuel : Nat) : WFState × Outcome :=
  if hasNegativeWeight inp then (emptyState, Outcome.invalidInput)
  else wfLoop inp fuel 0 (seedState inp)

/-! ## The vector field and the path integrator

Modelled from the spec: the bodies of `CVPMeshPlanner::computeVectorMap`
and of the vector-field back-tracking inside `makePlan` are not among
the sources; they are modelled from the specification's description of
the `VectorFieldBuilder` and `PathIntegrator` components, with the
floating-point trigonometry (predecessor-edge rotation by the stored
angle, barycentric blending) replaced by rational surrogates of the same
shape. -/

/-- A 3D point with rational coordinates. -/
structure Pt where
  x : ℚ
  y : ℚ
  z : ℚ
  deriving DecidableEq

/-- Componentwise point addition. -/
def ptAdd (p q : Pt) : Pt := ⟨p.x + q.x, p.y + q.y, p.z + q.z⟩

/-- Componentwise point subtraction. -/
def ptSub (p q : Pt) : Pt := ⟨p.x - q.x, p.y - q.y, p.z - q.z⟩

/-- Scalar multiple of a point. -/
def ptScale (s : ℚ) (p : Pt) : Pt := ⟨s * p.x, s * p.y, s * p.z⟩

/-- Modelled from the spec: `CVPMeshPlanner::computeVectorMap`, the
post-processing that turns the propagation maps into a per-vertex
direction toward decreasing potential.  For a vertex with a recorded
predecessor and cutting face, the direction of the predecessor edge (the
in-plane rotation by the stored angle is the rational surrogate's
identity); seed vertices, having no predecessor, yield no vector and act
as path terminals. -/
def computeVectorMap (pos : Nat → Pt) (st : WFState) : Nat → Option Pt :=
  fun v =>
    match st.predecessor v, st.cuttingFace v with
    | some p, some _ => some (ptSub (pos p) (pos v))
    | _, _ => none

/-- Modelled from the spec: the inputs of one path integration — the face list, the vector field, the
potential field, the step width and goal threshold, the external
geometric collaborator resolving which face a stepped point lies in
(`locate` / the edge-crossing test), and the cancellation token as the
sequence of per-iteration reads. -/
structure PathInput where
  faces : List (Nat × Nat × Nat)
  vectorField : Nat → Option Pt
  potential : VMap
  stepWidth : ℚ
  goalThreshold : ℤ
  resolveFace : Nat → Pt → Option Nat
  cancel : Nat → Bool

/-- Modelled from the spec: the integrator's state — current point and containing face, the
ordered output path of (point, face) pairs, and the accumulated cost. -/
structure IntState where
  pos : Pt
  face : Nat
  path : List (Pt × Nat)
  cost : ℚ

/-- Modelled from the spec: the outcomes of a path integration. -/
inductive IntOutcome
  | reached
  | budgetExceeded
  | offMesh
  | cycleDetected
  | cancelled
  deriving DecidableEq

/-- The zero vector, standing in for the undefined vector of a seed. -/
def ptZero : Pt := ⟨0, 0, 0⟩

/-- Modelled from the spec: the path integration loop of the
`PathIntegrator`.  Each iteration: read the cancellation flag once and
return the cancelled outcome immediately when set; finish successfully
when the local potential falls below the goal threshold; otherwise blend
the vector-field values of the containing face's three vertices into a
local direction, advance by the step width, resolve the face the new
point lies in, and append it to the path.  Running out of fuel is the
step/iteration budget guard, an unresolvable face is the off-mesh
failure, and a step that makes no progress within the same face is the
cycle guard. -/
def integrateLoop (pin : PathInput) : Nat → Nat → IntState → IntState × IntOutcome
  | 0, _, st => (st, IntOutcome.budgetExceeded)
  | fuel + 1, it, st =>
    if pin.cancel it then (st, IntOutcome.cancelled)
    else
      match pin.faces[st.face]? with
      | none => (st, IntOutcome.offMesh)
      | some f =>
        if dLt (pin.potential f.1) (some pin.goalThreshold) then (st, IntOutcome.reached)
        else
          let dir := ptScale (1 / 3) (ptAdd (ptAdd ((pin.vectorField f.1).getD ptZero)
            ((pin.vectorField f.2.1).getD ptZero)) ((pin.vectorField f.2.2).getD ptZero))
          let pos2 := ptAdd st.pos (ptScale pin.stepWidth dir)
          match pin.resolveFace st.face pos2 with
          | none => (st, IntOutcome.offMesh)
          | some f2 =>
            if f2 == st.face && pos2 == st.pos then (st, IntOutcome.cycleDetected)
            else
              let cost2 := st.cost + pin.stepWidth *
                (match pin.potential f.1 with | some p => (p : ℚ) | none => 1)
              integrateLoop pin fuel (it + 1)
                { pos := pos2, face := f2, path := st.path ++ [(pos2, f2)], cost := cost2 }

/-! ## The configuration snapshot of one plan computation -/

/-- Modelled from the spec: the per-request tunables of the planner's
reconfigurable `config_` block that the claims talk about. -/
structure Config where
  cost_limit : ℤ
  step_width : ℚ
  goal_dist_offset : ℤ

/-- Modelled from the spec: the configuration-independent inputs of one
`makePlan` call — the mesh, the external weight and cost maps, the seed
set, the stop vertex, the vertex positions, the integration start, the
external face-resolution collaborator and the cancellation token. -/
structure CoreInput where
  nV : Nat
  faces : List (Nat × Nat × Nat)
  edgeWeight : Nat → Nat → ℤ
  vertexCost : Nat → ℤ
  seeds : List (Nat × ℤ)
  stopVertex : Nat
  stopGoalDist : ℤ
  positions : Nat → Pt
  startPos : Pt
  startFace : Nat
  goalThreshold : ℤ
  resolveFace : Nat → Pt → Option Nat
  cancel : Nat → Bool

/-- Modelled from the spec: assembly of a propagation input from a configuration snapshot and the
core inputs: the cost limit and goal offset come from the snapshot. -/
def mkInput (cfg : Config) (core : CoreInput) : Input :=
  { nV := core.nV
    faces := core.faces
    edgeWeight := core.edgeWeight
    vertexCost := core.vertexCost
    costLimit := cfg.cost_limit
    seeds := core.seeds
    stopVertex := core.stopVertex
    stopGoalDist := core.stopGoalDist
    goalOffset := cfg.goal_dist_offset
    cancel := core.cancel }

/-- Modelled from the spec: `CVPMeshPlanner::makePlan`.  The mutable
configuration state is modelled as the history `history t` of values the
`config_` block holds at time `t`; a mid-computation `reconfigureCallback`
changes `history` at times `t ≥ 1`.  `makePlan` reads the configuration
exactly once, at entry (time 0), into an immutable snapshot, then runs
the wavefront propagation, builds the vector field and integrates the
path from that snapshot alone. -/
def makePlan (history : Nat → Config) (core : CoreInput) (fuel : Nat) :
    (WFState × Outcome) × (IntState × IntOutcome) :=
  let cfg := history 0
  let prop := waveFrontPropagation (mkInput cfg core) fuel
  let pin : PathInput :=
    { faces := core.faces
      vectorField := computeVectorMap core.positions prop.1
      potential := prop.1.potential
      stepWidth := cfg.step_width
      goalThreshold := core.goalThreshold
      resolveFace := core.resolveFace
      cancel := core.cancel }
  (prop, integrateLoop pin fuel 0
    { pos := core.startPos, face := core.startFace, path := [], cost := 0 })

/-! ## Concrete example inputs -/

/-- A single unit triangle with the goal seeded at vertex 0 and the
robot at vertex 2. -/
def exInput : Input :=
  { nV := 3
    faces := [(0, 1, 2)]
    edgeWeight := fun _ _ => 1
    vertexCost := fun _ => 0
    costLimit := 10
    seeds := [(0, 0)]
    stopVertex := 2
    stopGoalDist := 1
    goalOffset := 0
    cancel := fun _ => false }

/-- Input `exInput` with every field pointwise equal but syntactically
different function bodies. -/
def exInputB : Input :=
  { exInput with
    edgeWeight := fun _ _ => 2 / 2
    vertexCost := fun _ => 1 - 1
    cancel := fun i => decide (i + 1 = 0) }

/-- Input `exInput` with vertex 2 priced at the cost limit. -/
def exInputLimited : Input :=
  { exInput with vertexCost := fun v => if v = 2 then 10 else 0 }

/-- Input `exInput` with a negative edge weight. -/
def exInputNeg : Input :=
  { exInput with edgeWeight := fun _ _ => -1 }

/-- Input `exInput` with all edge weights zero. -/
def exInputZero : Input :=
  { exInput with edgeWeight := fun _ _ => 0 }

/-- Input `exInput` with the cancellation flag already set. -/
def exInputCancel : Input :=
  { exInput with cancel := fun _ => true }

/-- A trivial path-integration input whose cancellation flag is set. -/
def exPinCancel : PathInput :=
  { faces := [(0, 1, 2)]
    vectorField := fun _ => none
    potential := fun _ => none
    stepWidth := 1
    goalThreshold := 1 / 100
    resolveFace := fun _ _ => none
    cancel := fun _ => true }

/-- An integration start state at the origin. -/
def exIntState : IntState := { pos := ptZero, face := 0, path := [], cost := 0 }

/-- A sample configuration snapshot. -/
def cfgA : Config := { cost_limit := 1, step_width := 2 / 5, goal_dist_offset := 3 / 10 }

/-- A second, different configuration. -/
def cfgB : Config := { cost_limit := 7, step_width := 1, goal_dist_offset := 2 }

/-- Core inputs matching `exInput` for a full `makePlan` run. -/
def exCore : CoreInput :=
  { nV := 3
    faces := [(0, 1, 2)]
    edgeWeight := fun _ _ => 1
    vertexCost := fun _ => 0
    seeds := [(0, 0)]
    stopVertex := 2
    stopGoalDist := 1
    positions := fun v => ⟨(v : ℚ), 0, 0⟩
    startPos := ⟨2, 0, 0⟩
    startFace := 0
    goalThreshold := 1 / 100
    resolveFace := fun f _ => some f
    cancel := fun _ => false }

/-- A response body of 18 bytes whose type byte is `Type::UINT`. -/
def respUINT : List Nat := typeUINT :: List.replicate 17 0

/-- A client whose caches are all empty. -/
def stEmpty : MeshClientState := ⟨[], [], []⟩

/-- A distance map with the source pair settled at 0 and vertex 2 still
at infinity. -/
def exDistances : VMap := fun v => if v = 2 then none else some 0

/-- Unit weights on every edge. -/
def exWeights : Nat → Nat → Dist := fun _ _ => some 1

theorem dLt_none_left (y : Dist) : dLt none y = false := by
  cases y <;> rfl

theorem dLe_none_right (x : Dist) : dLe x none = true := by
  simp [dLe, dLt_none_left]

theorem dLe_refl (x : Dist) : dLe x x = true := by
  cases x with
  | none => rfl
  | some q => simp [dLe, dLt]

theorem dLt_imp_dLe {x y : Dist} (h : dLt x y = true) : dLe x y = true := by
  cases x <;> cases y <;> simp_all [dLt, dLe]
  · linarith

theorem dLe_trans {x y z : Dist} (h1 : dLe x y = true) (h2 : dLe y z = true) :
    dLe x z = true := by
  cases x <;> cases y <;> cases z <;> simp_all [dLe, dLt]
  · linarith

theorem dLe_dAdd_right {x : Dist} {w : ℤ} (hw : 0 ≤ w) :
    dLe x (dAdd x (some w)) = true := by
  cases x with
  | none => simp [dAdd, dLe, dLt]
  | some q => simp [dAdd, dLe, dLt]; linarith

theorem dLe_dMax_left (x y : Dist) : dLe x (dMax x y) = true := by
  cases x <;> cases y <;> simp [dMax, dLt, dLe]
  rename_i a b
  by_cases h : a < b <;> simp [h] <;> linarith

theorem dLe_dMax_right (x y : Dist) : dLe y (dMax x y) = true := by
  cases x <;> cases y <;> simp [dMax, dLt, dLe]
  rename_i a b
  by_cases h : a < b <;> simp [h] <;> linarith

theorem dLe_zero_dAdd {x y : Dist} (hx : dLe (some 0) x = true)
    (hy : dLe (some 0) y = true) : dLe (some 0) (dAdd x y) = true := by
  cases x <;> cases y <;> simp_all [dAdd, dLe, dLt]
  · linarith

/-- The shared contract, proved once for the shell: `improved?` is true
exactly when the rule's cut test holds and the rule's formula strictly
improves `v3`, and a false return leaves the distance map unchanged. -/
theorem relaxShell_contract (cut : Dist → Dist → Dist → Dist → Dist → Bool)
    (formula : Dist → Dist → Dist → Dist → Dist → Dist)
    (distances : VMap) (ew : Nat → Nat → Dist) (v1 v2 v3 : Nat) :
    ((relaxShell cut formula distances ew v1 v2 v3).1 = true ↔
      (cut (distances v1) (distances v2) (ew v2 v3) (ew v1 v3) (ew v1 v2) = true ∧
       dLt (formula (distances v1) (distances v2) (ew v2 v3) (ew v1 v3) (ew v1 v2))
         (distances v3) = true)) ∧
    ((relaxShell cut formula distances ew v1 v2 v3).1 = false →
      (relaxShell cut formula distances ew v1 v2 v3).2 = distances) := by
  constructor
  · unfold relaxShell
    by_cases hc : cut (distances v1) (distances v2) (ew v2 v3) (ew v1 v3) (ew v1 v2) = true
    · by_cases hd : dLt (formula (distances v1) (distances v2) (ew v2 v3) (ew v1 v3)
          (ew v1 v2)) (distances v3) = true
      · simp [hc, hd]
      · simp only [Bool.not_eq_true] at hd
        simp [hc, hd]
    · simp only [Bool.not_eq_true] at hc
      simp [hc]
  · unfold relaxShell
    by_cases hb : (cut (distances v1) (distances v2) (ew v2 v3) (ew v1 v3) (ew v1 v2) &&
        dLt (formula (distances v1) (distances v2) (ew v2 v3) (ew v1 v3) (ew v1 v2))
          (distances v3)) = true
    · simp [hb]
    · simp only [Bool.not_eq_true] at hb
      simp [hb]

theorem mapFind_mapInsert (m : List (String × Channel)) (k : String) (c : Channel) :
    mapFind (mapInsert m k c) k = some c := by
  simp [mapFind, mapInsert, List.find?]

theorem dLe_some_iff {x y : ℤ} : dLe (some x) (some y) = true ↔ x ≤ y := by
  simp [dLe, dLt, not_lt]

theorem dAdd_eq_some {x y : Dist} {q : ℤ} (h : dAdd x y = some q) :
    ∃ qx qy, x = some qx ∧ y = some qy ∧ q = qx + qy := by
  cases x <;> cases y <;> simp_all [dAdd]

theorem locStep_eq_some {a b c : Dist} {t : ℤ} (h : locStep a b c = some t) :
    ∃ qa qb qc, a = some qa ∧ b = some qb ∧ c = some qc ∧
      t = max 0 ((qa + qb - qc) / 2) := by
  cases a <;> cases b <;> cases c <;> simp_all [locStep]

theorem dMax_eq_some {x y : Dist} {m : ℤ} (h : dMax x y = some m) :
    ∃ qx qy, x = some qx ∧ y = some qy ∧ m = max qx qy := by
  cases x with
  | none => cases y <;> simp_all [dMax, dLt]
  | some qx =>
    cases y with
    | none => simp_all [dMax, dLt]
    | some qy =>
      refine ⟨qx, qy, rfl, rfl, ?_⟩
      simp only [dMax, dLt] at h
      by_cases hlt : qx < qy
      · simp [hlt] at h
        rw [← h]
        exact (max_eq_right hlt.le).symm
      · simp [hlt] at h
        rw [← h]
        exact (max_eq_left (not_lt.mp hlt)).symm

theorem formulaLoC_bounds {d1 d2 a b c : Dist} {q : ℤ}
    (h : formulaLoC d1 d2 a b c = some q) :
    dLe d1 (some q) = true ∧ dLe d2 (some q) = true := by
  unfold formulaLoC at h
  obtain ⟨m, t, hmax, hstep, hq⟩ := dAdd_eq_some h
  obtain ⟨q1, q2, h1, h2, hm⟩ := dMax_eq_some hmax
  obtain ⟨qa, qb, qc, _, _, _, ht⟩ := locStep_eq_some hstep
  have ht0 : 0 ≤ t := ht ▸ le_max_left 0 _
  subst h1 h2 hq hm
  constructor
  · rw [dLe_some_iff]
    calc q1 ≤ max q1 q2 := le_max_left q1 q2
    _ ≤ max q1 q2 + t := by linarith
  · rw [dLe_some_iff]
    calc q2 ≤ max q1 q2 := le_max_right q1 q2
    _ ≤ max q1 q2 + t := by linarith

theorem formulaLoC_weights_finite {d1 d2 a b c : Dist} {q : ℤ}
    (h : formulaLoC d1 d2 a b c = some q) :
    (∃ w, a = some w) ∧ (∃ w, b = some w) := by
  unfold formulaLoC at h
  obtain ⟨m, t, _, hstep, _⟩ := dAdd_eq_some h
  obtain ⟨qa, qb, qc, ha, hb, _, _⟩ := locStep_eq_some hstep
  exact ⟨⟨qa, ha⟩, ⟨qb, hb⟩⟩

theorem effW_eq_some {inp : Input} {u v : Nat} {w : ℤ} (h : effW inp u v = some w) :
    w = inp.edgeWeight u v ∧ ¬ inp.costLimit ≤ inp.vertexCost u ∧
      ¬ inp.costLimit ≤ inp.vertexCost v := by
  unfold effW at h
  split at h
  · exact absurd h (by simp)
  · rename_i hcond
    rw [not_or] at hcond
    exact ⟨(Option.some.inj h).symm, hcond⟩

theorem GoodState.update {st : WFState} (h : GoodState st) {v3 p : Nat} {q : ℤ}
    {fIdx : Nat} {front : List (Nat × ℤ)}
    (hp3 : p ≠ v3)
    (hq0 : dLe (some 0) (some q) = true)
    (hpq : dLe (st.potential p) (some q) = true)
    (hlt : dLt (some q) (st.potential v3) = true) :
    GoodState
      { st with
        potential := vset st.potential v3 (some q)
        predecessor := fun u => if u = v3 then some p else st.predecessor u
        cuttingFace := fun u => if u = v3 then some fIdx else st.cuttingFace u
        frontier := front } := by
  obtain ⟨hnn, hpred⟩ := h
  constructor
  · intro v
    simp only [vset]
    by_cases hv : v = v3
    · simp [hv, hq0]
    · simp only [hv, if_false]
      exact hnn v
  · intro v p' hp'
    simp only [vset]
    simp only at hp'
    by_cases hv : v = v3
    · rw [if_pos hv] at hp'
      have hpp : p' = p := (Option.some.inj hp').symm
      subst hpp hv
      simp only [if_pos rfl]
      rw [if_neg hp3]
      exact hpq
    · rw [if_neg hv] at hp'
      have hold := hpred v p' hp'
      rw [if_neg hv]
      by_cases hpv : p' = v3
      · subst hpv
        simp only [if_pos rfl]
        exact dLe_trans (dLt_imp_dLe hlt) hold
      · rw [if_neg hpv]
        exact hold

theorem relaxCandidate_good (inp : Input) (hw : ∀ u v, 0 ≤ inp.edgeWeight u v)
    (fIdx v1 v2 v3 : Nat) (st : WFState) (h : GoodState st) :
    GoodState (relaxCandidate inp fIdx v1 v2 v3 st) := by
  simp only [relaxCandidate]
  split
  · exact h
  · rename_i hguard
    simp only [Bool.or_eq_true, beq_iff_eq, not_or] at hguard
    obtain ⟨⟨hset, hv13⟩, hv23⟩ := hguard
    split
    · exact h
    · rename_i q heq
      split
      · rename_i hlt
        have hp3 : (if dLe (st.potential v1) (st.potential v2) then v1 else v2) ≠ v3 := by
          split
          · exact hv13
          · exact hv23
        have hpq : dLe (st.potential
            (if dLe (st.potential v1) (st.potential v2) then v1 else v2)) (some q) = true := by
          by_cases hcut : cutTestLoC (st.potential v1) (st.potential v2)
              (effW inp v2 v3) (effW inp v1 v3) (effW inp v1 v2) = true
          · rw [if_pos hcut] at heq
            obtain ⟨hb1, hb2⟩ := formulaLoC_bounds heq
            split
            · exact hb1
            · exact hb2
          · rw [if_neg hcut] at heq
            by_cases hle : dLe (st.potential v1) (st.potential v2) = true
            · rw [if_pos hle] at heq ⊢
              obtain ⟨q1, wb, hd1, hb, hq⟩ := dAdd_eq_some heq
              obtain ⟨hwb, _, _⟩ := effW_eq_some hb
              rw [hd1, dLe_some_iff, hq]
              have := hw v1 v3
              linarith [this, hwb ▸ this]
            · rw [if_neg hle] at heq ⊢
              obtain ⟨q2, wa, hd2, ha, hq⟩ := dAdd_eq_some heq
              obtain ⟨hwa, _, _⟩ := effW_eq_some ha
              rw [hd2, dLe_some_iff, hq]
              have := hw v2 v3
              linarith [this, hwa ▸ this]
        have hq0 : dLe (some 0) (some q) = true :=
          dLe_trans (h.1 (if dLe (st.potential v1) (st.potential v2) then v1 else v2)) hpq
        exact h.update hp3 hq0 hpq hlt
      · exact h

theorem expandFace_good (inp : Input) (hw : ∀ u v, 0 ≤ inp.edgeWeight u v)
    (u : Nat) (st : WFState) (ff : Nat × (Nat × Nat × Nat)) (h : GoodState st) :
    GoodState (expandFace inp u st ff) := by
  simp only [expandFace]
  split
  · split
    · split
      · split
        · exact relaxCandidate_good inp hw _ _ _ _ _
            (relaxCandidate_good inp hw _ _ _ _ _ (relaxCandidate_good inp hw _ _ _ _ _ h))
        · exact relaxCandidate_good inp hw _ _ _ _ _ (relaxCandidate_good inp hw _ _ _ _ _ h)
      · split
        · exact relaxCandidate_good inp hw _ _ _ _ _ (relaxCandidate_good inp hw _ _ _ _ _ h)
        · exact relaxCandidate_good inp hw _ _ _ _ _ h
    · split
      · split
        · exact relaxCandidate_good inp hw _ _ _ _ _ (relaxCandidate_good inp hw _ _ _ _ _ h)
        · exact relaxCandidate_good inp hw _ _ _ _ _ h
      · split
        · exact relaxCandidate_good inp hw _ _ _ _ _ h
        · exact h
  · exact h

theorem expandVertex_good (inp : Input) (hw : ∀ u v, 0 ≤ inp.edgeWeight u v)
    (u : Nat) (st : WFState) (h : GoodState st) :
    GoodState (expandVertex inp u st) := by
  simp only [expandVertex]
  generalize inp.faces.enum = l
  induction l generalizing st with
  | nil => exact h
  | cons ff l ih => exact ih _ (expandFace_good inp hw u st ff h)

theorem wfLoop_good (inp : Input) (hw : ∀ u v, 0 ≤ inp.edgeWeight u v) :
    ∀ (fuel it : Nat) (st : WFState), GoodState st →
      GoodState (wfLoop inp fuel it st).1 := by
  intro fuel
  induction fuel with
  | zero => intro it st h; exact h
  | succ n ih =>
    intro it st h
    simp only [wfLoop]
    split
    · exact h
    · split
      · exact h
      · split
        · exact ih _ _ ⟨h.1, h.2⟩
        · split
          · exact expandVertex_good inp hw _ _ ⟨h.1, h.2⟩
          · exact ih _ _ (expandVertex_good inp hw _ _ ⟨h.1, h.2⟩)

theorem seedState_good (inp : Input) (hs : ∀ s ∈ inp.seeds, 0 ≤ s.2) :
    GoodState (seedState inp) := by
  constructor
  · intro v
    simp only [seedState]
    cases hfind : (inp.seeds.filter
        (fun s => decide (inp.vertexCost s.1 < inp.costLimit))).find?
        (fun s => s.1 == v) with
    | none => simp [hfind, dLe_none_right]
    | some s =>
      have hmem : s ∈ inp.seeds :=
        List.mem_of_mem_filter (List.mem_of_find?_eq_some hfind)
      exact dLe_some_iff.mpr (hs s hmem)
  · intro v p hp
    simp only [seedState] at hp
    exact absurd hp (by simp)

theorem emptyState_good : GoodState emptyState := by
  constructor
  · intro v; exact dLe_none_right _
  · intro v p hp; exact absurd hp (by simp [emptyState])

theorem relaxCandidate_costInv (inp : Input) (fIdx v1 v2 v3 : Nat) (st : WFState)
    (h : CostInv inp st) : CostInv inp (relaxCandidate inp fIdx v1 v2 v3 st) := by
  simp only [relaxCandidate]
  split
  · exact h
  · split
    · exact h
    · rename_i q heq
      split
      · intro v hv
        simp only [vset]
        by_cases hv3 : v = v3
        · exfalso
          subst hv3
          by_cases hcut : cutTestLoC (st.potential v1) (st.potential v2)
              (effW inp v2 v) (effW inp v1 v) (effW inp v1 v2) = true
          · rw [if_pos hcut] at heq
            obtain ⟨_, ⟨wb, hb⟩⟩ := formulaLoC_weights_finite heq
            exact (effW_eq_some hb).2.2 hv
          · rw [if_neg hcut] at heq
            by_cases hle : dLe (st.potential v1) (st.potential v2) = true
            · rw [if_pos hle] at heq
              obtain ⟨q1, wb, _, hb, _⟩ := dAdd_eq_some heq
              exact (effW_eq_some hb).2.2 hv
            · rw [if_neg hle] at heq
              obtain ⟨q2, wa, _, ha, _⟩ := dAdd_eq_some heq
              exact (effW_eq_some ha).2.2 hv
        · rw [if_neg hv3]
          exact h v hv
      · exact h

theorem expandFace_costInv (inp : Input) (u : Nat) (st : WFState)
    (ff : Nat × (Nat × Nat × Nat)) (h : CostInv inp st) :
    CostInv inp (expandFace inp u st ff) := by
  simp only [expandFace]
  repeat' split
  all_goals repeat' apply relaxCandidate_costInv
  all_goals exact h

theorem expandVertex_costInv (inp : Input) (u : Nat) (st : WFState)
    (h : CostInv inp st) : CostInv inp (expandVertex inp u st) := by
  simp only [expandVertex]
  generalize inp.faces.enum = l
  induction l generalizing st with
  | nil => exact h
  | cons ff l ih => exact ih _ (expandFace_costInv inp u st ff h)

theorem wfLoop_costInv (inp : Input) :
    ∀ (fuel it : Nat) (st : WFState), CostInv inp st →
      CostInv inp (wfLoop inp fuel it st).1 := by
  intro fuel
  induction fuel with
  | zero => intro it st h; exact h
  | succ n ih =>
    intro it st h
    simp only [wfLoop]
    split
    · exact h
    · split
      · exact h
      · split
        · exact ih _ _ (fun v hv => h v hv)
        · split
          · exact expandVertex_costInv inp _ _ (fun v hv => h v hv)
          · exact ih _ _ (expandVertex_costInv inp _ _ (fun v hv => h v hv))

theorem seedState_costInv (inp : Input) : CostInv inp (seedState inp) := by
  intro v hv
  simp only [seedState]
  cases hfind : (inp.seeds.filter
      (fun s => decide (inp.vertexCost s.1 < inp.costLimit))).find?
      (fun s => s.1 == v) with
  | none => rfl
  | some s =>
    exfalso
    have hmemf := List.mem_of_find?_eq_some hfind
    have hpred := List.find?_some hfind
    have hfilt := (List.mem_filter.mp hmemf).2
    rw [beq_iff_eq] at hpred
    rw [decide_eq_true_iff] at hfilt
    rw [hpred] at hfilt
    exact absurd hv (not_le.mpr hfilt)

theorem findMin_none {l : List (Nat × ℤ)} (h : findMin l = none) : l = [] := by
  cases l with
  | nil => rfl
  | cons e es =>
    exfalso
    simp only [findMin] at h
    cases hes : findMin es with
    | none =>
      have h2 : some e = none := by rw [hes] at h; exact h
      exact Option.noConfusion h2
    | some m =>
      have h2 : (if entryBefore m e then some m else some e) = none := by
        rw [hes] at h; exact h
      split at h2 <;> exact Option.noConfusion h2

theorem findMin_min : ∀ (l : List (Nat × ℤ)) (m : Nat × ℤ), findMin l = some m →
    ∀ e ∈ l, m.2 < e.2 ∨ (m.2 = e.2 ∧ m.1 ≤ e.1) := by
  intro l
  induction l with
  | nil => intro m hm; simp [findMin] at hm
  | cons a es ih =>
    intro m hm e he
    simp only [findMin] at hm
    cases hes : findMin es with
    | none =>
      have hm2 : some a = some m := by rw [hes] at hm; exact hm
      have hma : m = a := (Option.some.inj hm2).symm
      have hese : es = [] := findMin_none hes
      subst hma hese
      rcases List.mem_cons.mp he with rfl | habs
      · exact Or.inr ⟨rfl, le_refl _⟩
      · exact absurd habs (List.not_mem_nil e)
    | some m0 =>
      have hm2 : (if entryBefore m0 a then some m0 else some a) = some m := by
        rw [hes] at hm; exact hm
      by_cases hbe : entryBefore m0 a = true
      · rw [if_pos hbe] at hm2
        have hmm : m = m0 := (Option.some.inj hm2).symm
        subst hmm
        rcases List.mem_cons.mp he with rfl | hmem
        · simp only [entryBefore, Bool.or_eq_true, Bool.and_eq_true,
            decide_eq_true_iff] at hbe
          rcases hbe with hlt | ⟨heq, hidx⟩
          · exact Or.inl hlt
          · exact Or.inr ⟨heq, hidx.le⟩
        · exact ih m hes e hmem
      · rw [if_neg hbe] at hm2
        have hma : m = a := (Option.some.inj hm2).symm
        subst hma
        rcases List.mem_cons.mp he with rfl | hmem
        · exact Or.inr ⟨rfl, le_refl _⟩
        · have h0 := ih m0 hes e hmem
          simp only [entryBefore, Bool.or_eq_true, Bool.and_eq_true,
            decide_eq_true_iff, not_or, not_and, not_lt] at hbe
          obtain ⟨hle, himp⟩ := hbe
          rcases h0 with hlt | ⟨heq, hidx⟩
          · exact Or.inl (lt_of_le_of_lt hle hlt)
          · rcases lt_or_eq_of_le hle with hltv | heqv
            · exact Or.inl (heq ▸ hltv)
            · exact Or.inr ⟨heqv ▸ heq, le_trans (himp heqv.symm) hidx⟩

theorem input_ext_pointwise (inp1 inp2 : Input)
    (h1 : inp1.nV = inp2.nV) (h2 : inp1.faces = inp2.faces)
    (h3 : ∀ u v, inp1.edgeWeight u v = inp2.edgeWeight u v)
    (h4 : ∀ v, inp1.vertexCost v = inp2.vertexCost v)
    (h5 : inp1.costLimit = inp2.costLimit) (h6 : inp1.seeds = inp2.seeds)
    (h7 : inp1.stopVertex = inp2.stopVertex)
    (h8 : inp1.stopGoalDist = inp2.stopGoalDist)
    (h9 : inp1.goalOffset = inp2.goalOffset)
    (h10 : ∀ i, inp1.cancel i = inp2.cancel i) :
    inp1 = inp2 := by
  cases inp1
  cases inp2
  simp only [Input.mk.injEq] at *
  exact ⟨h1, h2, funext fun u => funext fun v => h3 u v, funext h4, h5, h6, h7, h8, h9,
    funext h10⟩

theorem wfLoop_ne_invalidInput (inp : Input) :
    ∀ (fuel it : Nat) (st : WFState), (wfLoop inp fuel it st).2 ≠ Outcome.invalidInput := by
  intro fuel
  induction fuel with
  | zero => intro it st h; exact Outcome.noConfusion h
  | succ n ih =>
    intro it st
    simp only [wfLoop]
    split
    · intro h; exact Outcome.noConfusion h
    · split
      · intro h; exact Outcome.noConfusion h
      · split
        · exact ih _ _
        · split
          · intro h; exact Outcome.noConfusion h
          · exact ih _ _

/-! ## The claims -/

/-- C1: for every mesh, seed set (seed potentials are planar distances,
hence non-negative) and non-negative edge weights, the potential field
produced by `waveFrontPropagation` is non-negative at every vertex, and
every vertex `v` carrying a predecessor `p` — in particular every
settled one — satisfies `potential v ≥ potential p`. -/
theorem waveFrontPropagation_potential_nonneg_monotone (inp : Input) (fuel : Nat)
    (hw : ∀ u v, 0 ≤ inp.edgeWeight u v) (hs : ∀ s ∈ inp.seeds, 0 ≤ s.2) :
    (∀ v, dLe (some 0) ((waveFrontPropagation inp fuel).1.potential v) = true) ∧
    (∀ v p, (waveFrontPropagation inp fuel).1.predecessor v = some p →
      dLe ((waveFrontPropagation inp fuel).1.potential p)
        ((waveFrontPropagation inp fuel).1.potential v) = true) := by
  have hgood : GoodState (waveFrontPropagation inp fuel).1 := by
    unfold waveFrontPropagation
    split
    · exact emptyState_good
    · exact wfLoop_good inp hw fuel 0 _ (seedState_good inp hs)
  exact hgood

theorem waveFrontPropagation_potential_nonneg_monotone_witness :
    dLe (some 0) ((waveFrontPropagation exInput 10).1.potential 2) = true ∧
    dLe ((waveFrontPropagation exInput 10).1.potential 0)
      ((waveFrontPropagation exInput 10).1.potential 2) = true := by
  have h := waveFrontPropagation_potential_nonneg_monotone exInput 10
    (fun u v => by norm_num [exInput])
    (fun s hsm => by simp [exInput] at hsm; simp [hsm])
  exact ⟨h.1 2, h.2 2 0 (by decide)⟩

/-- C2: the three relaxation rules `waveFrontUpdate`,
`waveFrontUpdateWithS` and `waveFrontUpdateFMM` implement the same
contract over (distances, edge weights, v1, v2, v3): each returns true
exactly when its wavefront cut test holds and its newly computed
distance for `v3` is strictly shorter than the current value, and each
leaves the distance map unchanged whenever it returns false. -/
theorem waveFrontUpdate_rules_share_contract (distances : VMap)
    (ew : Nat → Nat → Dist) (v1 v2 v3 : Nat) :
    (((waveFrontUpdate distances ew v1 v2 v3).1 = true ↔
        (cutTestLoC (distances v1) (distances v2) (ew v2 v3) (ew v1 v3) (ew v1 v2) = true ∧
         dLt (formulaLoC (distances v1) (distances v2) (ew v2 v3) (ew v1 v3) (ew v1 v2))
           (distances v3) = true)) ∧
      ((waveFrontUpdate distances ew v1 v2 v3).1 = false →
        (waveFrontUpdate distances ew v1 v2 v3).2 = distances)) ∧
    (((waveFrontUpdateWithS distances ew v1 v2 v3).1 = true ↔
        (cutTestWithS (distances v1) (distances v2) (ew v2 v3) (ew v1 v3) (ew v1 v2) = true ∧
         dLt (formulaWithS (distances v1) (distances v2) (ew v2 v3) (ew v1 v3) (ew v1 v2))
           (distances v3) = true)) ∧
      ((waveFrontUpdateWithS distances ew v1 v2 v3).1 = false →
        (waveFrontUpdateWithS distances ew v1 v2 v3).2 = distances)) ∧
    (((waveFrontUpdateFMM distances ew v1 v2 v3).1 = true ↔
        (cutTestLoC (distances v1) (distances v2) (ew v2 v3) (ew v1 v3) (ew v1 v2) = true ∧
         dLt (formulaFMM (distances v1) (distances v2) (ew v2 v3) (ew v1 v3) (ew v1 v2))
           (distances v3) = true)) ∧
      ((waveFrontUpdateFMM distances ew v1 v2 v3).1 = false →
        (waveFrontUpdateFMM distances ew v1 v2 v3).2 = distances)) :=
  ⟨relaxShell_contract cutTestLoC formulaLoC distances ew v1 v2 v3,
   relaxShell_contract cutTestWithS formulaWithS distances ew v1 v2 v3,
   relaxShell_contract cutTestLoC formulaFMM distances ew v1 v2 v3⟩

theorem waveFrontUpdate_rules_share_contract_witness :
    (waveFrontUpdate exDistances exWeights 0 1 2).1 = true :=
  ((waveFrontUpdate_rules_share_contract exDistances exWeights 0 1 2).1.1).mpr
    ⟨by decide, by decide⟩

/-- C3: a vertex whose cost reaches the configured cost limit never
receives a finite potential from the propagation: its incident edges all
carry infinite effective weight and it is never seeded. -/
theorem waveFrontPropagation_cost_limit_unreachable (inp : Input) (fuel : Nat)
    (v : Nat) (h : inp.costLimit ≤ inp.vertexCost v) :
    (waveFrontPropagation inp fuel).1.potential v = none := by
  have hinv : CostInv inp (waveFrontPropagation inp fuel).1 := by
    unfold waveFrontPropagation
    split
    · intro u hu; rfl
    · exact wfLoop_costInv inp fuel 0 _ (seedState_costInv inp)
  exact hinv v h

theorem waveFrontPropagation_cost_limit_unreachable_witness :
    (waveFrontPropagation exInputLimited 10).1.potential 2 = none :=
  waveFrontPropagation_cost_limit_unreachable exInputLimited 10 2
    (by norm_num [exInputLimited, exInput])

/-- C4: the cancellation flag is read once per outer-loop iteration of
both the wavefront propagation loop and the path integration loop; an
iteration that observes it set returns the cancelled outcome immediately
with the state — potential, predecessor, cutting-face, vector and path
maps — exactly as it was. -/
theorem cancellation_observed_returns_immediately (inp : Input) (pin : PathInput)
    (fuel fuel2 it it2 : Nat) (st : WFState) (ist : IntState)
    (hc : inp.cancel it = true) (hc2 : pin.cancel it2 = true) :
    wfLoop inp (fuel + 1) it st = (st, Outcome.cancelled) ∧
    integrateLoop pin (fuel2 + 1) it2 ist = (ist, IntOutcome.cancelled) := by
  constructor
  · simp only [wfLoop]
    rw [hc]
    simp
  · simp only [integrateLoop]
    rw [hc2]
    simp

theorem cancellation_observed_returns_immediately_witness :
    wfLoop exInputCancel 6 0 (seedState exInputCancel) =
      (seedState exInputCancel, Outcome.cancelled) ∧
    integrateLoop exPinCancel 6 0 exIntState = (exIntState, IntOutcome.cancelled) :=
  cancellation_observed_returns_immediately exInputCancel exPinCancel 5 5 0 0
    (seedState exInputCancel) exIntState rfl rfl

/-- C5: `waveFrontPropagation` is deterministic — two runs on pointwise
identical meshes, seeds, weights, costs, limits and cancellation reads
produce identical potential, predecessor and (derived) vector fields —
and ties in tentative potential are broken by the fixed reproducible
rule: the popped frontier entry has minimal tentative potential, with
equal potentials resolved toward the lower vertex index. -/
theorem waveFrontPropagation_deterministic (inp1 inp2 : Input) (fuel : Nat)
    (pos : Nat → Pt)
    (h1 : inp1.nV = inp2.nV) (h2 : inp1.faces = inp2.faces)
    (h3 : ∀ u v, inp1.edgeWeight u v = inp2.edgeWeight u v)
    (h4 : ∀ v, inp1.vertexCost v = inp2.vertexCost v)
    (h5 : inp1.costLimit = inp2.costLimit) (h6 : inp1.seeds = inp2.seeds)
    (h7 : inp1.stopVertex = inp2.stopVertex)
    (h8 : inp1.stopGoalDist = inp2.stopGoalDist)
    (h9 : inp1.goalOffset = inp2.goalOffset)
    (h10 : ∀ i, inp1.cancel i = inp2.cancel i) :
    (waveFrontPropagation inp1 fuel = waveFrontPropagation inp2 fuel ∧
     computeVectorMap pos (waveFrontPropagation inp1 fuel).1 =
       computeVectorMap pos (waveFrontPropagation inp2 fuel).1) ∧
    (∀ (l : List (Nat × ℤ)) (m : Nat × ℤ), findMin l = some m →
      ∀ e ∈ l, m.2 < e.2 ∨ (m.2 = e.2 ∧ m.1 ≤ e.1)) := by
  have he : inp1 = inp2 :=
    input_ext_pointwise inp1 inp2 h1 h2 h3 h4 h5 h6 h7 h8 h9 h10
  subst he
  exact ⟨⟨rfl, rfl⟩, findMin_min⟩

theorem waveFrontPropagation_deterministic_witness :
    waveFrontPropagation exInput 10 = waveFrontPropagation exInputB 10 := by
  have h := waveFrontPropagation_deterministic exInput exInputB 10 (fun _ => ptZero)
    rfl rfl (fun u v => by norm_num [exInput, exInputB])
    (fun v => by norm_num [exInput, exInputB]) rfl rfl rfl rfl rfl
    (fun i => by simp [exInput, exInputB])
  exact h.1.1

/-- C6: the per-request tunables (cost limit, step width, goal offset)
are snapshot at the entry of `makePlan`; the result does not depend on
any change the reconfiguration history makes to the mutable
configuration at any later time during the computation. -/
theorem makePlan_config_snapshot (h1 h2 : Nat → Config) (core : CoreInput)
    (fuel : Nat) (h : h1 0 = h2 0) :
    makePlan h1 core fuel = makePlan h2 core fuel := by
  unfold makePlan
  rw [h]

theorem makePlan_config_snapshot_witness :
    makePlan (fun _ => cfgA) exCore 10 =
      makePlan (fun t => if t = 0 then cfgA else cfgB) exCore 10 :=
  makePlan_config_snapshot (fun _ => cfgA) (fun t => if t = 0 then cfgA else cfgB)
    exCore 10 rfl

/-- C7: a negative edge weight makes planning return InvalidInput
immediately with the per-request maps still in their untouched initial
state, while inputs whose weights are all non-negative — zero weights
included — are never rejected as invalid input. -/
theorem waveFrontPropagation_rejects_negative_weights (inp : Input) (fuel : Nat) :
    (hasNegativeWeight inp = true →
      waveFrontPropagation inp fuel = (emptyState, Outcome.invalidInput)) ∧
    ((∀ u v, 0 ≤ inp.edgeWeight u v) →
      (waveFrontPropagation inp fuel).2 ≠ Outcome.invalidInput) := by
  constructor
  · intro h
    simp [waveFrontPropagation, h]
  · intro h
    have hneg : hasNegativeWeight inp = false := by
      rw [Bool.eq_false_iff]
      intro hany
      unfold hasNegativeWeight at hany
      rw [List.any_eq_true] at hany
      obtain ⟨f, _, hf⟩ := hany
      rw [Bool.or_eq_true, Bool.or_eq_true] at hf
      rcases hf with (hf | hf) | hf <;> rw [decide_eq_true_iff] at hf <;>
        exact absurd hf (not_lt.mpr (h _ _))
    unfold waveFrontPropagation
    rw [hneg]
    simp only [Bool.false_eq_true, if_false]
    exact wfLoop_ne_invalidInput inp fuel 0 _

/-- C8: `parseByteDataString` guards only against lengths below 10, yet
decodes 17 header bytes (offsets 0 through 16): on a 10-byte input it
succeeds while the input is shorter than 17 bytes, so the width field at
offsets 9–16 extends past the end of the string — the out-of-bounds
read of the C++. -/
theorem parseByteDataString_short_guard_reads_out_of_bounds :
    (parseByteDataString (List.replicate 10 0)).isSome = true ∧
    (List.replicate 10 (0 : Nat)).length < 17 := by
  exact ⟨rfl, by decide⟩

/-- C9: the inverted parse test of the `lvr2::IndexChannelOptional`
overload of `MeshClient::getChannel` (`if (!parseByteDataString(...) &&
type == Type::UINT)`): on a fresh client, a response that parses
successfully with decoded type `UINT` is nevertheless rejected — the
overload returns false and leaves the output channel untouched. -/
theorem getChannelIndex_rejects_valid_uint_response :
    (∃ hdr, parseByteDataString respUINT = some hdr ∧ hdr.type = typeUINT) ∧
    (∀ chan : Option Channel,
      getChannelIndex stEmpty "mesh" "face_normals" chan (some respUINT) =
        (false, chan, true)) := by
  constructor
  · exact ⟨_, rfl, rfl⟩
  · intro chan
    rfl

/-- C10: storing then fetching round-trips through the in-memory cache:
after `addVertices`, `addIndices` or any `addChannel`, the matching
getter with the same name returns exactly the stored channel without
issuing a network request, and the `group` argument affects neither
storage nor lookup. -/
theorem cache_roundtrip_and_group_irrelevant (st : MeshClientState)
    (group group2 name : String) (c junk : Channel) (chan : Option Channel)
    (response : Option (List Nat)) :
    getVertices (addVertices st c).2 response = (some c, false) ∧
    getIndices (addIndices st c).2 response = (some c, false) ∧
    getChannelFloat (addChannelFloat st group name c).2 group2 name chan response =
      (true, some c, false) ∧
    getChannelIndex (addChannelIndex st group name c).2 group2 name chan response =
      (true, some c, false) ∧
    getChannelUChar (addChannelUChar st group name c).2 group2 name chan response junk =
      (true, some c, false) ∧
    addChannelFloat st group name c = addChannelFloat st group2 name c ∧
    addChannelIndex st group name c = addChannelIndex st group2 name c ∧
    addChannelUChar st group name c = addChannelUChar st group2 name c := by
  refine ⟨?_, ?_, ?_, ?_, ?_, rfl, rfl, rfl⟩ <;>
    simp [getVertices, getIndices, getChannelFloat, getChannelIndex, getChannelUChar,
      addVertices, addIndices, addChannelFloat, addChannelIndex, addChannelUChar,
      mapFind_mapInsert]

theorem waveFrontPropagation_rejects_negative_weights_witness :
    waveFrontPropagation exInputNeg 10 = (emptyState, Outcome.invalidInput) ∧
    (waveFrontPropagation exInputZero 10).2 ≠ Outcome.invalidInput :=
  ⟨(waveFrontPropagation_rejects_negative_weights exInputNeg 10).1 rfl,
   (waveFrontPropagation_rejects_negative_weights exInputZero 10).2
     (fun u v => le_refl 0)⟩

end MeshNav
